import Mathlib

/-!
Verification of the rectangle cave-object variant and of the logger context
helper of the gdash-export-CrLi repository.

The repository sources under verification are the two headers
`src/cave/object/caveobjectrectangle.hpp` and `src/misc/logger.hpp`.
The headers declare the rectangle operations (`draw`, `get_bdcff`,
`clone_from_bdcff`, the descriptor array) but their bodies live in a
translation unit that is not among the sources; those bodies are modelled
from the specification, and each such definition carries a doc comment
saying so.  Inline bodies that do appear in the headers (`clone`,
`get_characteristic_element`, the default constructor,
`SetLoggerContextForFunction`) are translated directly.
-/

namespace GDash

/-- Modelled from the spec: the element enumeration is "a closed set of
symbolic game-tile identifiers", opaque beyond identity/equality, with an
undefined/none sentinel (`Onone`).  The full enumeration is not among the
sources; a representative closed set of tile kinds is used. -/
inductive GdElementEnum where
  | Ospace
  | Odirt
  | Owall
  | Odiamond
  | Osteel
  | Onone
deriving DecidableEq

/-- Modelled from the spec: each element identifier's canonical text form
("element names are drawn from the fixed Element enumeration's canonical
text form").  The sentinel's text form is not a valid element name. -/
def gdElementName : GdElementEnum → List Char
  | .Ospace => "SPACE".data
  | .Odirt => "DIRT".data
  | .Owall => "WALL".data
  | .Odiamond => "DIAMOND".data
  | .Osteel => "STEELWALL".data
  | .Onone => "NONE".data

/-- Modelled from the spec: lookup of an element by its canonical name;
an unknown element name yields no result.  The undefined/none sentinel is
not a valid element name (the invariant says no fully constructed object
holds it). -/
def gdElementFromName (s : List Char) : Option GdElementEnum :=
  if s = "SPACE".data then some .Ospace
  else if s = "DIRT".data then some .Odirt
  else if s = "WALL".data then some .Owall
  else if s = "DIAMOND".data then some .Odiamond
  else if s = "STEELWALL".data then some .Osteel
  else none

/-- `Coordinate` from the geometry base: an immutable pair of integer grid
positions. -/
structure Coordinate where
  x : Int
  y : Int
deriving DecidableEq

/-- `CaveRectangle` (header lines 25-47): the rectangular geometry base's
corner pair `p1`, `p2` plus the variant's `GdElement element` field. -/
structure CaveRectangle where
  p1 : Coordinate
  p2 : Coordinate
  element : GdElementEnum
deriving DecidableEq

/-- Modelled from the spec: the coordinate/element constructor
`CaveRectangle(Coordinate _p1, Coordinate _p2, GdElementEnum _element)`
(declared header line 26, body not among the sources) stores the corner
pair as given — "order not pre-normalized at construction" — and the
element as given. -/
def CaveRectangle.make (q1 q2 : Coordinate) (e : GdElementEnum) : CaveRectangle :=
  ⟨q1, q2, e⟩

/-- The default constructor `CaveRectangle(): CaveRectangular(GD_RECTANGLE) {}`
(header line 27) sets only the base's type tag and leaves the element field
unset.  Modelled from the spec: an unset element field is embedded as the
undefined/none sentinel; the unset corners are embedded as the zero
coordinate (their value is irrelevant to every claim about this object). -/
def CaveRectangle.defaultCtor : CaveRectangle :=
  ⟨⟨0, 0⟩, ⟨0, 0⟩, .Onone⟩

/-- `clone` (header lines 28-30): `return new CaveRectangle(*this)`, the
compiler-generated copy constructor, i.e. a memberwise copy of `p1`, `p2`
and `element`. -/
def CaveRectangle.clone (r : CaveRectangle) : CaveRectangle :=
  ⟨r.p1, r.p2, r.element⟩

/-- `get_characteristic_element` (header lines 44-46): `return element;`. -/
def CaveRectangle.get_characteristic_element (r : CaveRectangle) : GdElementEnum :=
  r.element

/-- Whole-field assignment of `p1` (the spec's mutation model: "Mutated only
through whole-field assignment (e.g., editor drag)"). -/
def CaveRectangle.set_p1 (r : CaveRectangle) (c : Coordinate) : CaveRectangle :=
  { r with p1 := c }

/-- Whole-field assignment of `p2`. -/
def CaveRectangle.set_p2 (r : CaveRectangle) (c : Coordinate) : CaveRectangle :=
  { r with p2 := c }

/-- Whole-field assignment of `element`. -/
def CaveRectangle.set_element (r : CaveRectangle) (e : GdElementEnum) : CaveRectangle :=
  { r with element := e }

/-! ## Tokenization: whitespace-separated words of a line -/

/-- Splits a character list into maximal runs of non-whitespace characters;
the accumulator holds the current word reversed. -/
def wordsAux : List Char → List Char → List (List Char)
  | [], acc => if acc = [] then [] else [acc.reverse]
  | c :: cs, acc =>
    if c.isWhitespace then
      if acc = [] then wordsAux cs [] else acc.reverse :: wordsAux cs []
    else wordsAux cs (c :: acc)

/-- The whitespace-separated tokens of a line. -/
def words (l : List Char) : List (List Char) :=
  wordsAux l []

/-- Joins words with single spaces. -/
def unwords : List (List Char) → List Char
  | [] => []
  | w :: ws =>
    match ws with
    | [] => w
    | _ :: _ => w ++ ' ' :: unwords ws

/-! ## Base-10 integers: rendering and parsing -/

/-- The character of one decimal digit. -/
def digitChar (d : Nat) : Char :=
  Char.ofNat (48 + d)

/-- The decimal value of a digit character; `none` for a non-digit. -/
def digitVal (c : Char) : Option Nat :=
  if '0' ≤ c ∧ c ≤ '9' then some (c.toNat - 48) else none

/-- Renders a natural number's decimal digits in front of `acc`. -/
def natToCharsAux (n : Nat) (acc : List Char) : List Char :=
  if h : n < 10 then digitChar n :: acc
  else natToCharsAux (n / 10) (digitChar (n % 10) :: acc)
termination_by n
decreasing_by exact Nat.div_lt_self (by omega) (by omega)

/-- Decimal rendering of a natural number. -/
def natToChars (n : Nat) : List Char :=
  natToCharsAux n []

/-- Decimal rendering of an integer (a `-` sign for negative values). -/
def intToChars (i : Int) : List Char :=
  if i < 0 then '-' :: natToChars i.natAbs else natToChars i.natAbs

/-- The value obtained by appending the decimal digits of `n` after the
digits already accumulated in `a`; the recursion mirrors `natToCharsAux`. -/
def combine (a n : Nat) : Nat :=
  if h : n < 10 then 10 * a + n
  else 10 * combine a (n / 10) + n % 10
termination_by n
decreasing_by exact Nat.div_lt_self (by omega) (by omega)

/-- Left-to-right decimal accumulation; fails at the first non-digit. -/
def parseNatAux : List Char → Nat → Option Nat
  | [], acc => some acc
  | c :: cs, acc =>
    match digitVal c with
    | some d => parseNatAux cs (10 * acc + d)
    | none => none

/-- Parses a nonempty all-digit token as a natural number. -/
def parseNat (l : List Char) : Option Nat :=
  if l = [] then none else parseNatAux l 0

/-- Parses a base-10 integer token: an optional sign followed by digits,
nothing else; any malformed token yields no result. -/
def parseIntChars (l : List Char) : Option Int :=
  match l with
  | [] => none
  | c :: cs =>
    if c = '-' then (parseNat cs).map (fun n => -(n : Int))
    else if c = '+' then (parseNat cs).map (fun n => (n : Int))
    else (parseNat (c :: cs)).map (fun n => (n : Int))

/-! ## Serialization and parsing of the rectangle line format -/

/-- `get_bdcff` (declared header line 35, body not among the sources).
Modelled from the spec: one text line
`Rectangle <p1.x> <p1.y> <p2.x> <p2.y> <element-name>`, tokens
whitespace-separated, integers base-10, fixed field order matching the
descriptor table. -/
def CaveRectangle.get_bdcff (r : CaveRectangle) : String :=
  ⟨unwords ["Rectangle".data, intToChars r.p1.x, intToChars r.p1.y,
            intToChars r.p2.x, intToChars r.p2.y, gdElementName r.element]⟩

/-- `clone_from_bdcff` (declared header line 36, body not among the
sources).  Modelled from the spec: the full line must consist of the type
tag `Rectangle` followed by exactly five whitespace-separated tokens — two
integer coordinates and one valid element name, in that order; any
malformed field token, wrong token count, or unknown element name makes the
whole parse yield no result, with no partial object constructed. -/
def CaveRectangle.clone_from_bdcff (s : String) : Option CaveRectangle :=
  match words s.data with
  | [t, a, b, c, d, e] =>
    if t = "Rectangle".data then
      match parseIntChars a, parseIntChars b, parseIntChars c,
            parseIntChars d, gdElementFromName e with
      | some x1, some y1, some x2, some y2, some el =>
        some ⟨⟨x1, y1⟩, ⟨x2, y2⟩, el⟩
      | _, _, _, _, _ => none
    else none
  | _ => none

/-! ## The property descriptor table -/

/-- The semantic type tag of one descriptor entry. -/
inductive PropType where
  | coordinate
  | elementType
deriving DecidableEq

/-- One entry of the static per-variant metadata table: a field name, a
semantic type tag, and the spec's "generic accessor capable of reading and
writing that field on any instance": `tokensOf` renders the field of a
given instance as its serialized tokens, `setFrom` consumes the field's
tokens from the front of a token stream, sets the field on the given
instance, and returns the remaining stream (no result on a malformed
token). -/
structure PropertyDescription where
  ident : List Char
  ptype : PropType
  tokensOf : CaveRectangle → List (List Char)
  setFrom : CaveRectangle → List (List Char) → Option (CaveRectangle × List (List Char))

/-- Modelled from the spec: the rectangle variant's static descriptor array
(declared header line 40, contents not among the sources) lists the
serializable fields in order — the two corner coordinates `p1`, `p2` from
the geometry base, then the variant's `element`. -/
def CaveRectangle.descriptor : List PropertyDescription :=
  [⟨"p1".data, .coordinate, fun r => [intToChars r.p1.x, intToChars r.p1.y],
    fun r ts =>
      match ts with
      | a :: b :: rest =>
        match parseIntChars a, parseIntChars b with
        | some x, some y => some ({ r with p1 := ⟨x, y⟩ }, rest)
        | _, _ => none
      | _ => none⟩,
   ⟨"p2".data, .coordinate, fun r => [intToChars r.p2.x, intToChars r.p2.y],
    fun r ts =>
      match ts with
      | a :: b :: rest =>
        match parseIntChars a, parseIntChars b with
        | some x, some y => some ({ r with p2 := ⟨x, y⟩ }, rest)
        | _, _ => none
      | _ => none⟩,
   ⟨"element".data, .elementType, fun r => [gdElementName r.element],
    fun r ts =>
      match ts with
      | e :: rest =>
        match gdElementFromName e with
        | some el => some ({ r with element := el }, rest)
        | none => none
      | _ => none⟩]

/-- `get_description_array` (declared header line 42, body not among the
sources).  Modelled from the spec: returns the variant's static table,
the same for every instance. -/
def CaveRectangle.get_description_array (_ : CaveRectangle) : List PropertyDescription :=
  CaveRectangle.descriptor

/-- The field parser generated generically from a descriptor table: each
descriptor in table order consumes and sets its own field's tokens; the
whole stream must be consumed exactly.  Follows the spec's words
("prefer generating serialize/parse from the descriptor table"); defined
for comparison with the variant's own parse operation. -/
def parseByTable : List PropertyDescription → CaveRectangle → List (List Char) →
    Option CaveRectangle
  | [], r, ts => if ts = [] then some r else none
  | dsc :: rest, r, ts =>
    match dsc.setFrom r ts with
    | some (r', ts') => parseByTable rest r' ts'
    | none => none

/-- The full line parser generated from the descriptor table: the type tag
followed by the descriptor-ordered fields, applied to a prototype object
whose every field the table then overwrites.  Defined for comparison with
clone_from_bdcff. -/
def parseLineByTable (s : String) : Option CaveRectangle :=
  match words s.data with
  | [] => none
  | t :: ts =>
    if t = "Rectangle".data then
      parseByTable CaveRectangle.descriptor CaveRectangle.defaultCtor ts
    else none

/-! ## The rendered cave and the draw operation -/

/-- The Rendered Cave: a mutable 2-D grid of element identifiers with fixed
width and height, modelled as a total content function over integer
coordinates together with the bounds. -/
structure CaveRendered where
  w : Int
  h : Int
  map : Int → Int → GdElementEnum

/-- Whether a coordinate lies inside the grid bounds. -/
def CaveRendered.inside (cave : CaveRendered) (x y : Int) : Prop :=
  0 ≤ x ∧ x < cave.w ∧ 0 ≤ y ∧ y < cave.h

instance (cave : CaveRendered) (x y : Int) : Decidable (cave.inside x y) := by
  unfold CaveRendered.inside
  infer_instance

/-- The rendering contract's setter: writes an element at a coordinate, a
no-op (not an error) for out-of-bounds coordinates. -/
def CaveRendered.store_rc (cave : CaveRendered) (x y : Int) (e : GdElementEnum) :
    CaveRendered :=
  if cave.inside x y then
    { cave with map := fun a b => if a = x ∧ b = y then e else cave.map a b }
  else cave

/-- The integers from `a` to `b` inclusive (empty when `b < a`). -/
def rangeInt (a b : Int) : List Int :=
  (List.range (b + 1 - a).toNat).map (fun k : Nat => a + (k : Int))

/-- `draw` (declared header line 34, body not among the sources).
Modelled from the spec: computes the normalized bounding box from the base
(min/max per axis over the stored corners) and writes the characteristic
element into every cell of the top row, bottom row, left column and right
column of the box, out-of-bounds cells silently skipped. -/
def CaveRectangle.draw (r : CaveRectangle) (cave : CaveRendered) : CaveRendered :=
  let x1 := min r.p1.x r.p2.x
  let y1 := min r.p1.y r.p2.y
  let x2 := max r.p1.x r.p2.x
  let y2 := max r.p1.y r.p2.y
  let cave1 := (rangeInt x1 x2).foldl
    (fun cv x => (cv.store_rc x y1 r.element).store_rc x y2 r.element) cave
  (rangeInt y1 y2).foldl
    (fun cv y => (cv.store_rc x1 y r.element).store_rc x2 y r.element) cave1

/-- A cell lies on the perimeter of the normalized bounding box of the
stored corners. -/
def CaveRectangle.onPerimeter (r : CaveRectangle) (a b : Int) : Prop :=
  min r.p1.x r.p2.x ≤ a ∧ a ≤ max r.p1.x r.p2.x ∧
  min r.p1.y r.p2.y ≤ b ∧ b ≤ max r.p1.y r.p2.y ∧
  (a = min r.p1.x r.p2.x ∨ a = max r.p1.x r.p2.x ∨
   b = min r.p1.y r.p2.y ∨ b = max r.p1.y r.p2.y)

instance (r : CaveRectangle) (a b : Int) : Decidable (r.onPerimeter a b) := by
  unfold CaveRectangle.onPerimeter
  infer_instance

/-- The normalized bounding-box view the geometry base exposes to its
subclasses: min/max per axis over the stored corners, computed without
touching the stored values. -/
def CaveRectangle.bbox (r : CaveRectangle) : Int × Int × Int × Int :=
  (min r.p1.x r.p2.x, min r.p1.y r.p2.y, max r.p1.x r.p2.x, max r.p1.y r.p2.y)

/-- The rectangle with the two stored corners exchanged. -/
def CaveRectangle.swapCorners (r : CaveRectangle) : CaveRectangle :=
  ⟨r.p2, r.p1, r.element⟩

/-! ## The logger context helper (`src/misc/logger.hpp`) -/

/-- Severity levels of `ErrorMessage` (logger header lines 30-37). -/
inductive Severity where
  | Debug
  | Info
  | Message
  | Warning
  | Critical
  | Error
deriving DecidableEq

/-- An `ErrorMessage`: a severity level and a message string. -/
structure ErrorMessage where
  sev : Severity
  message : String
deriving DecidableEq

/-- The mutable state of a `Logger` object: the `ignore` and `read` flags,
the recorded messages, and the context string added to all messages. -/
structure Logger where
  ignore : Bool
  read : Bool
  messages : List ErrorMessage
  context : String
deriving DecidableEq

/-- `Logger::set_context`: replaces the context string. -/
def Logger.set_context (l : Logger) (c : String) : Logger :=
  { l with context := c }

/-- `Logger::get_context`: returns the context string. -/
def Logger.get_context (l : Logger) : String :=
  l.context

/-- The constructor of `SetLoggerContextForFunction` (logger header lines
163-166): it saves `orig_context = l.get_context()` and sets the logger's
context to `context` when the saved context is empty, and to
`orig_context + ", " + context` otherwise.  Returns the updated logger
paired with the saved `orig_context` member. -/
def setLoggerContextCtor (context : String) (l : Logger) : Logger × String :=
  let orig := l.get_context
  (l.set_context (if orig.isEmpty then context else orig ++ ", " ++ context), orig)

/-- The destructor of `SetLoggerContextForFunction` (logger header lines
167-169): restores the logger's context to the saved `orig_context`. -/
def setLoggerContextDtor (l : Logger) (orig : String) : Logger :=
  l.set_context orig

/-! ## Lemmas: tokenization -/

theorem wordsAux_append (w : List Char) (hw : ∀ c ∈ w, c.isWhitespace = false) :
    ∀ (cs acc : List Char), wordsAux (w ++ cs) acc = wordsAux cs (w.reverse ++ acc) := by
  induction w with
  | nil => intro cs acc; simp
  | cons c w ih =>
    intro cs acc
    have hc : c.isWhitespace = false := hw c (List.mem_cons_self c w)
    have hw' : ∀ x ∈ w, x.isWhitespace = false := fun x hx => hw x (List.mem_cons_of_mem c hx)
    simp only [List.cons_append, wordsAux, hc, Bool.false_eq_true, if_false]
    show wordsAux (w ++ cs) (c :: acc) = wordsAux cs ((c :: w).reverse ++ acc)
    rw [ih hw' cs (c :: acc)]
    simp [List.append_assoc]

theorem words_unwords : ∀ ws : List (List Char),
    (∀ w ∈ ws, w ≠ [] ∧ ∀ c ∈ w, c.isWhitespace = false) →
    words (unwords ws) = ws := by
  intro ws
  induction ws with
  | nil => intro _; rfl
  | cons w ws ih =>
    intro h
    obtain ⟨hne, hnw⟩ := h w (List.mem_cons_self w ws)
    cases ws with
    | nil =>
      show words (unwords [w]) = [w]
      have hu : unwords [w] = w := rfl
      rw [hu, words, ← List.append_nil w, wordsAux_append w hnw]
      simp [wordsAux, hne]
    | cons w' ws' =>
      have h' : ∀ v ∈ w' :: ws', v ≠ [] ∧ ∀ c ∈ v, c.isWhitespace = false :=
        fun v hv => h v (List.mem_cons_of_mem w hv)
      have hu : unwords (w :: w' :: ws') = w ++ ' ' :: unwords (w' :: ws') := rfl
      rw [words, hu, wordsAux_append w hnw]
      have hsp : (' ' : Char).isWhitespace = true := by decide
      simp only [wordsAux, hsp, if_true, List.append_nil]
      have hrne : w.reverse ≠ [] := by simp [hne]
      rw [if_neg hrne]
      rw [List.reverse_reverse]
      have := ih h'
      rw [words] at this
      rw [this]

/-! ## Lemmas: decimal rendering and parsing -/

theorem digitVal_digitChar (d : Nat) (h : d < 10) : digitVal (digitChar d) = some d := by
  interval_cases d <;> decide

theorem digitChar_not_ws (d : Nat) (h : d < 10) : (digitChar d).isWhitespace = false := by
  interval_cases d <;> decide

theorem digitChar_ne_minus (d : Nat) (h : d < 10) : digitChar d ≠ '-' := by
  interval_cases d <;> decide

theorem digitChar_ne_plus (d : Nat) (h : d < 10) : digitChar d ≠ '+' := by
  interval_cases d <;> decide

theorem natToCharsAux_head (n : Nat) : ∀ acc : List Char,
    ∃ d rest, d < 10 ∧ natToCharsAux n acc = digitChar d :: rest := by
  induction n using Nat.strong_induction_on with
  | _ n ih =>
    intro acc
    rw [natToCharsAux]
    split
    · next h => exact ⟨n, acc, h, rfl⟩
    · next h => exact ih (n / 10) (Nat.div_lt_self (by omega) (by omega)) _

theorem natToCharsAux_mem (n : Nat) : ∀ (acc : List Char) (c : Char),
    c ∈ natToCharsAux n acc → (∃ d, d < 10 ∧ c = digitChar d) ∨ c ∈ acc := by
  induction n using Nat.strong_induction_on with
  | _ n ih =>
    intro acc c hc
    rw [natToCharsAux] at hc
    split at hc
    · next h =>
      rcases List.mem_cons.mp hc with h1 | h1
      · exact Or.inl ⟨n, h, h1⟩
      · exact Or.inr h1
    · next h =>
      rcases ih (n / 10) (Nat.div_lt_self (by omega) (by omega)) _ c hc with h1 | h1
      · exact Or.inl h1
      · rcases List.mem_cons.mp h1 with h2 | h2
        · exact Or.inl ⟨n % 10, by omega, h2⟩
        · exact Or.inr h2

theorem natToChars_ne_nil (n : Nat) : natToChars n ≠ [] := by
  obtain ⟨d, rest, _, he⟩ := natToCharsAux_head n []
  rw [natToChars, he]
  simp

theorem parseNatAux_natToCharsAux (n : Nat) : ∀ (acc : List Char) (a : Nat),
    parseNatAux (natToCharsAux n acc) a = parseNatAux acc (combine a n) := by
  induction n using Nat.strong_induction_on with
  | _ n ih =>
    intro acc a
    by_cases h : n < 10
    · rw [natToCharsAux, dif_pos h, combine, dif_pos h]
      simp [parseNatAux, digitVal_digitChar n h]
    · rw [natToCharsAux, dif_neg h, combine, dif_neg h]
      rw [ih (n / 10) (Nat.div_lt_self (by omega) (by omega))]
      simp [parseNatAux, digitVal_digitChar (n % 10) (by omega)]

theorem combine_zero (n : Nat) : combine 0 n = n := by
  induction n using Nat.strong_induction_on with
  | _ n ih =>
    by_cases h : n < 10
    · rw [combine, dif_pos h]; omega
    · rw [combine, dif_neg h, ih (n / 10) (Nat.div_lt_self (by omega) (by omega))]
      omega

theorem parseNat_natToChars (n : Nat) : parseNat (natToChars n) = some n := by
  rw [parseNat, if_neg (natToChars_ne_nil n), natToChars, parseNatAux_natToCharsAux]
  simp [parseNatAux, combine_zero]

theorem intToChars_ne_nil (i : Int) : intToChars i ≠ [] := by
  rw [intToChars]
  split
  · simp
  · exact natToChars_ne_nil _

theorem intToChars_not_ws (i : Int) : ∀ c ∈ intToChars i, c.isWhitespace = false := by
  intro c hc
  rw [intToChars] at hc
  have hnat : ∀ m : Nat, c ∈ natToChars m → c.isWhitespace = false := by
    intro m hm
    rcases natToCharsAux_mem m [] c hm with ⟨d, hd, rfl⟩ | h1
    · exact digitChar_not_ws d hd
    · cases h1
  split at hc
  · rcases List.mem_cons.mp hc with rfl | h1
    · decide
    · exact hnat _ h1
  · exact hnat _ hc

theorem parseIntChars_natToChars (m : Nat) : parseIntChars (natToChars m) = some (m : Int) := by
  obtain ⟨d, rest, hd, he⟩ := natToCharsAux_head m []
  have hl : natToChars m = digitChar d :: rest := by rw [natToChars, he]
  rw [hl]
  simp only [parseIntChars, if_neg (digitChar_ne_minus d hd), if_neg (digitChar_ne_plus d hd)]
  rw [← hl, parseNat_natToChars]
  rfl

theorem parseIntChars_intToChars (i : Int) : parseIntChars (intToChars i) = some i := by
  by_cases hneg : i < 0
  · rw [intToChars, if_pos hneg]
    have hstep : parseIntChars ('-' :: natToChars i.natAbs)
        = (parseNat (natToChars i.natAbs)).map (fun n => -(n : Int)) := rfl
    rw [hstep, parseNat_natToChars]
    have habs : -((i.natAbs : Nat) : Int) = i := by omega
    show some (-((i.natAbs : Nat) : Int)) = some i
    rw [habs]
  · rw [intToChars, if_neg hneg, parseIntChars_natToChars]
    have habs : ((i.natAbs : Nat) : Int) = i := by omega
    rw [habs]

theorem intToChars_inj {i j : Int} (h : intToChars i = intToChars j) : i = j := by
  have hi := parseIntChars_intToChars i
  rw [h, parseIntChars_intToChars j] at hi
  injection hi with hi
  exact hi.symm

/-! ## Lemmas: element names -/

theorem gdElementName_ne_nil (e : GdElementEnum) : gdElementName e ≠ [] := by
  cases e <;> decide

theorem gdElementName_not_ws (e : GdElementEnum) :
    ∀ c ∈ gdElementName e, c.isWhitespace = false := by
  cases e <;> decide

theorem gdElementFromName_gdElementName (e : GdElementEnum) (h : e ≠ .Onone) :
    gdElementFromName (gdElementName e) = some e := by
  cases e
  · decide
  · decide
  · decide
  · decide
  · decide
  · exact absurd rfl h

theorem gdElementFromName_eq_name {s : List Char} {el : GdElementEnum}
    (h : gdElementFromName s = some el) : s = gdElementName el := by
  rw [gdElementFromName] at h
  split_ifs at h <;>
    first
    | exact Option.noConfusion h
    | (injection h with h; subst h; simp_all [gdElementName])

theorem gdElementFromName_ne_none {s : List Char} {el : GdElementEnum}
    (h : gdElementFromName s = some el) : el ≠ .Onone := by
  rw [gdElementFromName] at h
  split_ifs at h <;>
    first
    | exact Option.noConfusion h
    | (injection h with h; subst h; decide)

/-! ## Lemmas: the serialized line and its tokens -/

theorem get_bdcff_words (r : CaveRectangle) :
    words (r.get_bdcff).data =
      ["Rectangle".data, intToChars r.p1.x, intToChars r.p1.y,
       intToChars r.p2.x, intToChars r.p2.y, gdElementName r.element] := by
  show words (unwords ["Rectangle".data, intToChars r.p1.x, intToChars r.p1.y,
      intToChars r.p2.x, intToChars r.p2.y, gdElementName r.element]) = _
  apply words_unwords
  intro w hw
  simp only [List.mem_cons, List.not_mem_nil, or_false] at hw
  rcases hw with rfl | rfl | rfl | rfl | rfl | rfl
  · exact ⟨by decide, by decide⟩
  · exact ⟨intToChars_ne_nil _, intToChars_not_ws _⟩
  · exact ⟨intToChars_ne_nil _, intToChars_not_ws _⟩
  · exact ⟨intToChars_ne_nil _, intToChars_not_ws _⟩
  · exact ⟨intToChars_ne_nil _, intToChars_not_ws _⟩
  · exact ⟨gdElementName_ne_nil _, gdElementName_not_ws _⟩

theorem clone_from_bdcff_eval (s : String) (a b c d e : List Char)
    (h : words s.data = ["Rectangle".data, a, b, c, d, e]) :
    CaveRectangle.clone_from_bdcff s =
      match parseIntChars a, parseIntChars b, parseIntChars c,
            parseIntChars d, gdElementFromName e with
      | some x1, some y1, some x2, some y2, some el =>
        some ⟨⟨x1, y1⟩, ⟨x2, y2⟩, el⟩
      | _, _, _, _, _ => none := by
  have h1 : CaveRectangle.clone_from_bdcff s
      = (if "Rectangle".data = "Rectangle".data then
          match parseIntChars a, parseIntChars b, parseIntChars c,
                parseIntChars d, gdElementFromName e with
          | some x1, some y1, some x2, some y2, some el =>
            some ⟨⟨x1, y1⟩, ⟨x2, y2⟩, el⟩
          | _, _, _, _, _ => none
        else none) := by
    rw [CaveRectangle.clone_from_bdcff, h]
  rw [h1, if_pos rfl]

theorem clone_from_bdcff_inv (L : String) (r : CaveRectangle)
    (h : CaveRectangle.clone_from_bdcff L = some r) :
    ∃ a b c d e, words L.data = ["Rectangle".data, a, b, c, d, e] ∧
      parseIntChars a = some r.p1.x ∧ parseIntChars b = some r.p1.y ∧
      parseIntChars c = some r.p2.x ∧ parseIntChars d = some r.p2.y ∧
      gdElementFromName e = some r.element := by
  rw [CaveRectangle.clone_from_bdcff] at h
  rcases hw : words L.data with _ | ⟨t, _ | ⟨a, _ | ⟨b, _ | ⟨c, _ | ⟨d, _ | ⟨e, _ | ⟨x, rest⟩⟩⟩⟩⟩⟩⟩ <;>
    rw [hw] at h
  case nil => exact Option.noConfusion h
  case cons.nil => exact Option.noConfusion h
  case cons.cons.nil => exact Option.noConfusion h
  case cons.cons.cons.nil => exact Option.noConfusion h
  case cons.cons.cons.cons.nil => exact Option.noConfusion h
  case cons.cons.cons.cons.cons.nil => exact Option.noConfusion h
  case cons.cons.cons.cons.cons.cons.cons => exact Option.noConfusion h
  case cons.cons.cons.cons.cons.cons.nil =>
    replace h : (if t = "Rectangle".data then
        match parseIntChars a, parseIntChars b, parseIntChars c,
              parseIntChars d, gdElementFromName e with
        | some x1, some y1, some x2, some y2, some el =>
          some (⟨⟨x1, y1⟩, ⟨x2, y2⟩, el⟩ : CaveRectangle)
        | _, _, _, _, _ => none
      else none) = some r := h
    split_ifs at h with ht
    · subst ht
      rcases hpa : parseIntChars a with _ | x1 <;> rw [hpa] at h
      · exact Option.noConfusion h
      rcases hpb : parseIntChars b with _ | y1 <;> rw [hpb] at h
      · exact Option.noConfusion h
      rcases hpc : parseIntChars c with _ | x2 <;> rw [hpc] at h
      · exact Option.noConfusion h
      rcases hpd : parseIntChars d with _ | y2 <;> rw [hpd] at h
      · exact Option.noConfusion h
      rcases hpe : gdElementFromName e with _ | el <;> rw [hpe] at h
      · exact Option.noConfusion h
      injection h with h
      subst h
      exact ⟨a, b, c, d, e, rfl, hpa, hpb, hpc, hpd, hpe⟩

theorem parseByTable_eval (ts : List (List Char)) :
    parseByTable CaveRectangle.descriptor CaveRectangle.defaultCtor ts =
      match ts with
      | [a, b, c, d, e] =>
        match parseIntChars a, parseIntChars b, parseIntChars c,
              parseIntChars d, gdElementFromName e with
        | some x1, some y1, some x2, some y2, some el =>
          some ⟨⟨x1, y1⟩, ⟨x2, y2⟩, el⟩
        | _, _, _, _, _ => none
      | _ => none := by
  rcases ts with _ | ⟨a, _ | ⟨b, _ | ⟨c, _ | ⟨d, _ | ⟨e, _ | ⟨f, rest⟩⟩⟩⟩⟩⟩
  · rfl
  · rfl
  · rcases hpa : parseIntChars a with _ | x1 <;>
      rcases hpb : parseIntChars b with _ | y1 <;>
        simp [parseByTable, CaveRectangle.descriptor, hpa, hpb]
  · rcases hpa : parseIntChars a with _ | x1 <;>
      rcases hpb : parseIntChars b with _ | y1 <;>
        simp [parseByTable, CaveRectangle.descriptor, hpa, hpb]
  · rcases hpa : parseIntChars a with _ | x1 <;>
      rcases hpb : parseIntChars b with _ | y1 <;>
        rcases hpc : parseIntChars c with _ | x2 <;>
          rcases hpd : parseIntChars d with _ | y2 <;>
            simp [parseByTable, CaveRectangle.descriptor, hpa, hpb, hpc, hpd]
  · rcases hpa : parseIntChars a with _ | x1 <;>
      rcases hpb : parseIntChars b with _ | y1 <;>
        rcases hpc : parseIntChars c with _ | x2 <;>
          rcases hpd : parseIntChars d with _ | y2 <;>
            rcases hpe : gdElementFromName e with _ | el <;>
              simp [parseByTable, CaveRectangle.descriptor, hpa, hpb, hpc, hpd, hpe]
  · rcases hpa : parseIntChars a with _ | x1 <;>
      rcases hpb : parseIntChars b with _ | y1 <;>
        rcases hpc : parseIntChars c with _ | x2 <;>
          rcases hpd : parseIntChars d with _ | y2 <;>
            rcases hpe : gdElementFromName e with _ | el <;>
              simp [parseByTable, CaveRectangle.descriptor, hpa, hpb, hpc, hpd, hpe]

theorem clone_from_bdcff_eq_table (L : String) :
    CaveRectangle.clone_from_bdcff L = parseLineByTable L := by
  rw [CaveRectangle.clone_from_bdcff, parseLineByTable]
  rcases hw : words L.data with _ | ⟨t, ts⟩
  · rfl
  · by_cases ht : t = "Rectangle".data
    · subst ht
      refine Eq.trans ?_ (parseByTable_eval ts).symm
      rcases ts with _ | ⟨a, _ | ⟨b, _ | ⟨c, _ | ⟨d, _ | ⟨e, _ | ⟨f, rest⟩⟩⟩⟩⟩⟩ <;> rfl
    · refine Eq.trans ?_ (if_neg ht).symm
      rcases ts with _ | ⟨a, _ | ⟨b, _ | ⟨c, _ | ⟨d, _ | ⟨e, _ | ⟨f, rest⟩⟩⟩⟩⟩⟩ <;>
        first
        | rfl
        | exact if_neg ht

/-! ## Lemmas: the rendered cave and drawing -/

theorem store_rc_w (cave : CaveRendered) (x y : Int) (e : GdElementEnum) :
    (cave.store_rc x y e).w = cave.w := by
  rw [CaveRendered.store_rc]
  split <;> rfl

theorem store_rc_h (cave : CaveRendered) (x y : Int) (e : GdElementEnum) :
    (cave.store_rc x y e).h = cave.h := by
  rw [CaveRendered.store_rc]
  split <;> rfl

theorem inside_congr {c1 c2 : CaveRendered} (hw : c1.w = c2.w) (hh : c1.h = c2.h)
    (a b : Int) : c1.inside a b ↔ c2.inside a b := by
  rw [CaveRendered.inside, CaveRendered.inside, hw, hh]

theorem store_rc_inside (cave : CaveRendered) (x y : Int) (e : GdElementEnum)
    (a b : Int) : (cave.store_rc x y e).inside a b ↔ cave.inside a b :=
  inside_congr (store_rc_w cave x y e) (store_rc_h cave x y e) a b

theorem store_rc_map (cave : CaveRendered) (x y : Int) (e : GdElementEnum) (a b : Int) :
    (cave.store_rc x y e).map a b =
      if cave.inside x y ∧ a = x ∧ b = y then e else cave.map a b := by
  rw [CaveRendered.store_rc]
  by_cases hin : cave.inside x y
  · rw [if_pos hin]
    show (if a = x ∧ b = y then e else cave.map a b) = _
    by_cases hab : a = x ∧ b = y
    · rw [if_pos hab, if_pos ⟨hin, hab⟩]
    · rw [if_neg hab, if_neg (fun hc => hab hc.2)]
  · rw [if_neg hin, if_neg (fun hc => hin hc.1)]

theorem foldl_row_w (e : GdElementEnum) (yA yB : Int) : ∀ (l : List Int) (cave : CaveRendered),
    (l.foldl (fun cv x => (cv.store_rc x yA e).store_rc x yB e) cave).w = cave.w := by
  intro l
  induction l with
  | nil => intro cave; rfl
  | cons x l ih =>
    intro cave
    rw [List.foldl_cons, ih, store_rc_w, store_rc_w]

theorem foldl_row_h (e : GdElementEnum) (yA yB : Int) : ∀ (l : List Int) (cave : CaveRendered),
    (l.foldl (fun cv x => (cv.store_rc x yA e).store_rc x yB e) cave).h = cave.h := by
  intro l
  induction l with
  | nil => intro cave; rfl
  | cons x l ih =>
    intro cave
    rw [List.foldl_cons, ih, store_rc_h, store_rc_h]

theorem foldl_col_w (e : GdElementEnum) (xA xB : Int) : ∀ (l : List Int) (cave : CaveRendered),
    (l.foldl (fun cv y => (cv.store_rc xA y e).store_rc xB y e) cave).w = cave.w := by
  intro l
  induction l with
  | nil => intro cave; rfl
  | cons y l ih =>
    intro cave
    rw [List.foldl_cons, ih, store_rc_w, store_rc_w]

theorem foldl_col_h (e : GdElementEnum) (xA xB : Int) : ∀ (l : List Int) (cave : CaveRendered),
    (l.foldl (fun cv y => (cv.store_rc xA y e).store_rc xB y e) cave).h = cave.h := by
  intro l
  induction l with
  | nil => intro cave; rfl
  | cons y l ih =>
    intro cave
    rw [List.foldl_cons, ih, store_rc_h, store_rc_h]

theorem foldl_row_map (e : GdElementEnum) (yA yB : Int) :
    ∀ (l : List Int) (cave : CaveRendered) (a b : Int),
    (l.foldl (fun cv x => (cv.store_rc x yA e).store_rc x yB e) cave).map a b =
      if cave.inside a b ∧ a ∈ l ∧ (b = yA ∨ b = yB) then e else cave.map a b := by
  intro l
  induction l with
  | nil =>
    intro cave a b
    simp
  | cons x l ih =>
    intro cave a b
    have hstep : ∀ (cv : CaveRendered),
        ((cv.store_rc x yA e).store_rc x yB e).map a b =
          if cv.inside a b ∧ a = x ∧ (b = yA ∨ b = yB) then e else cv.map a b := by
      intro cv
      rw [store_rc_map, store_rc_map]
      have hiff := store_rc_inside cv x yA e x yB
      by_cases h1 : a = x ∧ b = yB
      · obtain ⟨ha, hb⟩ := h1
        subst ha; subst hb
        by_cases hin : cv.inside a b
        · rw [if_pos ⟨hiff.mpr hin, rfl, rfl⟩, if_pos ⟨hin, rfl, Or.inr rfl⟩]
        · rw [if_neg (fun hc => hin (hiff.mp hc.1)),
            if_neg (fun hc => hin (by have h' := hc.1; rw [← hc.2.2] at h'; exact h')),
            if_neg (fun hc => hin hc.1)]
      · rw [if_neg (fun hc => h1 ⟨hc.2.1, hc.2.2⟩)]
        by_cases h2 : a = x ∧ b = yA
        · obtain ⟨ha, hb⟩ := h2
          subst ha; subst hb
          by_cases hin : cv.inside a b
          · rw [if_pos ⟨hin, rfl, rfl⟩, if_pos ⟨hin, rfl, Or.inl rfl⟩]
          · rw [if_neg (fun hc => hin hc.1), if_neg (fun hc => hin hc.1)]
        · rw [if_neg (fun hc => h2 ⟨hc.2.1, hc.2.2⟩)]
          rw [if_neg]
          rintro ⟨hin, ha, hb | hb⟩
          · exact h2 ⟨ha, hb⟩
          · exact h1 ⟨ha, hb⟩
    rw [List.foldl_cons, ih]
    have hin2 : ∀ p q : Int, ((cave.store_rc x yA e).store_rc x yB e).inside p q ↔
        cave.inside p q := by
      intro p q
      rw [store_rc_inside, store_rc_inside]
    rw [hstep cave]
    by_cases hin : cave.inside a b
    · by_cases hm : a ∈ l ∧ (b = yA ∨ b = yB)
      · rw [if_pos ⟨(hin2 a b).mpr hin, hm⟩,
          if_pos ⟨hin, List.mem_cons_of_mem x hm.1, hm.2⟩]
      · rw [if_neg (fun hc => hm ⟨hc.2.1, hc.2.2⟩)]
        by_cases hx : a = x ∧ (b = yA ∨ b = yB)
        · rw [if_pos ⟨hin, hx⟩, if_pos ⟨hin, hx.1 ▸ List.mem_cons_self x l, hx.2⟩]
        · rw [if_neg (fun hc => hx ⟨hc.2.1, hc.2.2⟩), if_neg]
          rintro ⟨-, hmem, hy⟩
          rcases List.mem_cons.mp hmem with rfl | hmem
          · exact hx ⟨rfl, hy⟩
          · exact hm ⟨hmem, hy⟩
    · rw [if_neg (fun hc => hin ((hin2 a b).mp hc.1)),
        if_neg (fun hc => hin hc.1), if_neg (fun hc => hin hc.1)]

theorem foldl_col_map (e : GdElementEnum) (xA xB : Int) :
    ∀ (l : List Int) (cave : CaveRendered) (a b : Int),
    (l.foldl (fun cv y => (cv.store_rc xA y e).store_rc xB y e) cave).map a b =
      if cave.inside a b ∧ b ∈ l ∧ (a = xA ∨ a = xB) then e else cave.map a b := by
  intro l
  induction l with
  | nil =>
    intro cave a b
    simp
  | cons y l ih =>
    intro cave a b
    have hstep : ∀ (cv : CaveRendered),
        ((cv.store_rc xA y e).store_rc xB y e).map a b =
          if cv.inside a b ∧ b = y ∧ (a = xA ∨ a = xB) then e else cv.map a b := by
      intro cv
      rw [store_rc_map, store_rc_map]
      have hiff := store_rc_inside cv xA y e xB y
      by_cases h1 : a = xB ∧ b = y
      · obtain ⟨ha, hb⟩ := h1
        subst ha; subst hb
        by_cases hin : cv.inside a b
        · rw [if_pos ⟨hiff.mpr hin, rfl, rfl⟩, if_pos ⟨hin, rfl, Or.inr rfl⟩]
        · rw [if_neg (fun hc => hin (hiff.mp hc.1)),
            if_neg (fun hc => hin (by have h' := hc.1; rw [← hc.2.1] at h'; exact h')),
            if_neg (fun hc => hin hc.1)]
      · rw [if_neg (fun hc => h1 ⟨hc.2.1, hc.2.2⟩)]
        by_cases h2 : a = xA ∧ b = y
        · obtain ⟨ha, hb⟩ := h2
          subst ha; subst hb
          by_cases hin : cv.inside a b
          · rw [if_pos ⟨hin, rfl, rfl⟩, if_pos ⟨hin, rfl, Or.inl rfl⟩]
          · rw [if_neg (fun hc => hin hc.1), if_neg (fun hc => hin hc.1)]
        · rw [if_neg (fun hc => h2 ⟨hc.2.1, hc.2.2⟩)]
          rw [if_neg]
          rintro ⟨hin, hb, ha | ha⟩
          · exact h2 ⟨ha, hb⟩
          · exact h1 ⟨ha, hb⟩
    rw [List.foldl_cons, ih]
    have hin2 : ∀ p q : Int, ((cave.store_rc xA y e).store_rc xB y e).inside p q ↔
        cave.inside p q := by
      intro p q
      rw [store_rc_inside, store_rc_inside]
    rw [hstep cave]
    by_cases hin : cave.inside a b
    · by_cases hm : b ∈ l ∧ (a = xA ∨ a = xB)
      · rw [if_pos ⟨(hin2 a b).mpr hin, hm⟩,
          if_pos ⟨hin, List.mem_cons_of_mem y hm.1, hm.2⟩]
      · rw [if_neg (fun hc => hm ⟨hc.2.1, hc.2.2⟩)]
        by_cases hy : b = y ∧ (a = xA ∨ a = xB)
        · rw [if_pos ⟨hin, hy⟩, if_pos ⟨hin, hy.1 ▸ List.mem_cons_self y l, hy.2⟩]
        · rw [if_neg (fun hc => hy ⟨hc.2.1, hc.2.2⟩), if_neg]
          rintro ⟨-, hmem, hx⟩
          rcases List.mem_cons.mp hmem with rfl | hmem
          · exact hy ⟨rfl, hx⟩
          · exact hm ⟨hmem, hx⟩
    · rw [if_neg (fun hc => hin ((hin2 a b).mp hc.1)),
        if_neg (fun hc => hin hc.1), if_neg (fun hc => hin hc.1)]

theorem mem_rangeInt {x a b : Int} : x ∈ rangeInt a b ↔ a ≤ x ∧ x ≤ b := by
  rw [rangeInt]
  constructor
  · intro hx
    obtain ⟨k, hk, he⟩ := List.mem_map.mp hx
    rw [List.mem_range] at hk
    omega
  · intro h
    refine List.mem_map.mpr ⟨(x - a).toNat, ?_, ?_⟩
    · rw [List.mem_range]
      omega
    · omega

theorem draw_w (r : CaveRectangle) (cave : CaveRendered) : (r.draw cave).w = cave.w := by
  rw [CaveRectangle.draw, foldl_col_w, foldl_row_w]

theorem draw_h (r : CaveRectangle) (cave : CaveRendered) : (r.draw cave).h = cave.h := by
  rw [CaveRectangle.draw, foldl_col_h, foldl_row_h]

theorem onPerimeter_iff (r : CaveRectangle) (a b : Int) :
    r.onPerimeter a b ↔
      (min r.p1.x r.p2.x ≤ a ∧ a ≤ max r.p1.x r.p2.x ∧
       min r.p1.y r.p2.y ≤ b ∧ b ≤ max r.p1.y r.p2.y ∧
       (a = min r.p1.x r.p2.x ∨ a = max r.p1.x r.p2.x ∨
        b = min r.p1.y r.p2.y ∨ b = max r.p1.y r.p2.y)) :=
  Iff.rfl

theorem draw_map (r : CaveRectangle) (cave : CaveRendered) (a b : Int) :
    (r.draw cave).map a b =
      if cave.inside a b ∧ r.onPerimeter a b then r.element else cave.map a b := by
  rw [CaveRectangle.draw, foldl_col_map, foldl_row_map]
  have hx : min r.p1.x r.p2.x ≤ max r.p1.x r.p2.x := min_le_max
  have hy : min r.p1.y r.p2.y ≤ max r.p1.y r.p2.y := min_le_max
  have hcave1 : ∀ p q : Int,
      (((rangeInt (min r.p1.x r.p2.x) (max r.p1.x r.p2.x)).foldl
        (fun cv x => (cv.store_rc x (min r.p1.y r.p2.y) r.element).store_rc x
          (max r.p1.y r.p2.y) r.element) cave).inside p q) ↔ cave.inside p q := by
    intro p q
    exact inside_congr (foldl_row_w _ _ _ _ _) (foldl_row_h _ _ _ _ _) p q
  by_cases hin : cave.inside a b
  · by_cases hcol : b ∈ rangeInt (min r.p1.y r.p2.y) (max r.p1.y r.p2.y) ∧
        (a = min r.p1.x r.p2.x ∨ a = max r.p1.x r.p2.x)
    · rw [if_pos ⟨(hcave1 a b).mpr hin, hcol⟩]
      obtain ⟨hbr, hax⟩ := hcol
      rw [mem_rangeInt] at hbr
      rw [if_pos ⟨hin, (onPerimeter_iff r a b).mpr
        ⟨by omega, by omega, hbr.1, hbr.2, by tauto⟩⟩]
    · rw [if_neg (fun hc => hcol ⟨hc.2.1, hc.2.2⟩)]
      by_cases hrow : a ∈ rangeInt (min r.p1.x r.p2.x) (max r.p1.x r.p2.x) ∧
          (b = min r.p1.y r.p2.y ∨ b = max r.p1.y r.p2.y)
      · rw [if_pos ⟨hin, hrow⟩]
        obtain ⟨har, hby⟩ := hrow
        rw [mem_rangeInt] at har
        rw [if_pos ⟨hin, (onPerimeter_iff r a b).mpr
          ⟨har.1, har.2, by omega, by omega, by tauto⟩⟩]
      · rw [if_neg (fun hc => hrow ⟨hc.2.1, hc.2.2⟩), if_neg]
        rintro ⟨-, hperim⟩
        obtain ⟨hxa1, hxa2, hyb1, hyb2, hedge⟩ := (onPerimeter_iff r a b).mp hperim
        rcases hedge with he | he | he | he
        · exact hcol ⟨mem_rangeInt.mpr ⟨hyb1, hyb2⟩, Or.inl he⟩
        · exact hcol ⟨mem_rangeInt.mpr ⟨hyb1, hyb2⟩, Or.inr he⟩
        · exact hrow ⟨mem_rangeInt.mpr ⟨hxa1, hxa2⟩, Or.inl he⟩
        · exact hrow ⟨mem_rangeInt.mpr ⟨hxa1, hxa2⟩, Or.inr he⟩
  · rw [if_neg (fun hc => hin ((hcave1 a b).mp hc.1)),
      if_neg (fun hc => hin hc.1), if_neg (fun hc => hin hc.1)]

theorem caveRendered_eq {c1 c2 : CaveRendered} (hw : c1.w = c2.w) (hh : c1.h = c2.h)
    (hm : ∀ a b : Int, c1.map a b = c2.map a b) : c1 = c2 := by
  cases c1
  cases c2
  simp only at hw hh hm
  subst hw
  subst hh
  have : ∀ a : Int, (fun b => _) = _ := fun a => funext (hm a)
  congr 1
  funext a b
  exact hm a b

theorem swapCorners_onPerimeter (r : CaveRectangle) (a b : Int) :
    r.swapCorners.onPerimeter a b ↔ r.onPerimeter a b := by
  rw [CaveRectangle.onPerimeter, CaveRectangle.onPerimeter, CaveRectangle.swapCorners]
  simp only [min_comm r.p2.x r.p1.x, min_comm r.p2.y r.p1.y,
    max_comm r.p2.x r.p1.x, max_comm r.p2.y r.p1.y]

theorem coordinate_eq {p q : Coordinate} (hx : p.x = q.x) (hy : p.y = q.y) : p = q := by
  cases p
  cases q
  simp_all

/-! ## Claim theorems -/

/-- C1: for every valid rectangle object (element not the undefined
sentinel), parsing the serialized line yields the same object field-wise;
and for every syntactically valid rectangle line, the parsed object
serializes back to the same line up to canonical token formatting: the
serialized tokens are the tag, the canonical base-10 renderings of the very
integers the line's coordinate tokens parse to, and the element token of
the line unchanged. -/
theorem rect_roundtrip :
    (∀ r : CaveRectangle, r.element ≠ .Onone →
      CaveRectangle.clone_from_bdcff r.get_bdcff = some r) ∧
    (∀ (L : String) (r : CaveRectangle),
      CaveRectangle.clone_from_bdcff L = some r →
      ∃ a b c d e, words L.data = ["Rectangle".data, a, b, c, d, e] ∧
        parseIntChars a = some r.p1.x ∧ parseIntChars b = some r.p1.y ∧
        parseIntChars c = some r.p2.x ∧ parseIntChars d = some r.p2.y ∧
        e = gdElementName r.element ∧
        words (r.get_bdcff).data =
          ["Rectangle".data, intToChars r.p1.x, intToChars r.p1.y,
           intToChars r.p2.x, intToChars r.p2.y, gdElementName r.element]) := by
  constructor
  · intro r hr
    rw [clone_from_bdcff_eval _ _ _ _ _ _ (get_bdcff_words r),
      parseIntChars_intToChars, parseIntChars_intToChars, parseIntChars_intToChars,
      parseIntChars_intToChars, gdElementFromName_gdElementName r.element hr]
  · intro L r h
    obtain ⟨a, b, c, d, e, hw, hpa, hpb, hpc, hpd, hpe⟩ := clone_from_bdcff_inv L r h
    exact ⟨a, b, c, d, e, hw, hpa, hpb, hpc, hpd,
      gdElementFromName_eq_name hpe, get_bdcff_words r⟩

/-- Witness for C1 at a concrete object and a concrete line. -/
theorem rect_roundtrip_witness :
    (CaveRectangle.clone_from_bdcff
        (CaveRectangle.get_bdcff ⟨⟨1, 2⟩, ⟨5, 4⟩, .Owall⟩) =
      some ⟨⟨1, 2⟩, ⟨5, 4⟩, .Owall⟩) ∧
    (∃ a b c d e,
      words ("Rectangle 1 2 5 4 WALL" : String).data =
        ["Rectangle".data, a, b, c, d, e] ∧
      parseIntChars a = some (1 : Int) ∧ parseIntChars b = some (2 : Int) ∧
      parseIntChars c = some (5 : Int) ∧ parseIntChars d = some (4 : Int) ∧
      e = gdElementName .Owall ∧
      words (CaveRectangle.get_bdcff ⟨⟨1, 2⟩, ⟨5, 4⟩, .Owall⟩).data =
        ["Rectangle".data, intToChars 1, intToChars 2, intToChars 5,
         intToChars 4, gdElementName .Owall]) :=
  ⟨rect_roundtrip.1 ⟨⟨1, 2⟩, ⟨5, 4⟩, .Owall⟩ (by decide),
   rect_roundtrip.2 "Rectangle 1 2 5 4 WALL" ⟨⟨1, 2⟩, ⟨5, 4⟩, .Owall⟩ (by decide)⟩

/-- C2: drawing writes the characteristic element exactly at the cells that
are both inside the grid bounds and on the perimeter of the normalized
bounding box; every other cell keeps its previous value, the grid
dimensions are unchanged, and out-of-bounds perimeter cells are skipped
rather than an error (the write is guarded by the bounds test). -/
theorem draw_footprint (r : CaveRectangle) (cave : CaveRendered) (a b : Int) :
    ((r.draw cave).map a b =
      if cave.inside a b ∧ r.onPerimeter a b then r.element else cave.map a b) ∧
    (r.draw cave).w = cave.w ∧ (r.draw cave).h = cave.h :=
  ⟨draw_map r cave a b, draw_w r cave, draw_h r cave⟩

/-- C3: the rectangle parse either fails with no result or succeeds on a
line of exactly the tag plus five tokens — two integer coordinates and a
valid element name — yielding the fully constructed object; in particular
the spec's two malformed examples are rejected. -/
theorem parse_rejection :
    (∀ L : String,
      CaveRectangle.clone_from_bdcff L = none ∨
      ∃ a b c d e x1 y1 x2 y2 el,
        words L.data = ["Rectangle".data, a, b, c, d, e] ∧
        parseIntChars a = some x1 ∧ parseIntChars b = some y1 ∧
        parseIntChars c = some x2 ∧ parseIntChars d = some y2 ∧
        gdElementFromName e = some el ∧
        CaveRectangle.clone_from_bdcff L = some ⟨⟨x1, y1⟩, ⟨x2, y2⟩, el⟩) ∧
    CaveRectangle.clone_from_bdcff "Rectangle 1 1 5" = none ∧
    CaveRectangle.clone_from_bdcff "Rectangle a 1 5 5 Wall" = none := by
  refine ⟨?_, by decide, by decide⟩
  intro L
  cases hres : CaveRectangle.clone_from_bdcff L with
  | none => exact Or.inl rfl
  | some r =>
    obtain ⟨a, b, c, d, e, hw, hpa, hpb, hpc, hpd, hpe⟩ := clone_from_bdcff_inv L r hres
    exact Or.inr ⟨a, b, c, d, e, r.p1.x, r.p1.y, r.p2.x, r.p2.y, r.element,
      hw, hpa, hpb, hpc, hpd, hpe, rfl⟩

/-- C4: clone is field-equal to the original, and — mutation being
whole-field assignment on a value — updating any field of the clone yields
an object whose other fields still equal the original's, while cloning a
mutated original reproduces that mutated original; no storage is shared,
each object is an independent value. -/
theorem clone_independence (r : CaveRectangle) (c : Coordinate) (e : GdElementEnum) :
    r.clone = r ∧
    (r.clone.set_p1 c).p1 = c ∧ (r.clone.set_p1 c).p2 = r.p2 ∧
    (r.clone.set_p1 c).element = r.element ∧
    (r.clone.set_p2 c).p2 = c ∧ (r.clone.set_p2 c).p1 = r.p1 ∧
    (r.clone.set_p2 c).element = r.element ∧
    (r.clone.set_element e).element = e ∧ (r.clone.set_element e).p1 = r.p1 ∧
    (r.clone.set_element e).p2 = r.p2 ∧
    (r.set_p1 c).clone = r.set_p1 c ∧ (r.set_p2 c).clone = r.set_p2 c ∧
    (r.set_element e).clone = r.set_element e :=
  ⟨rfl, rfl, rfl, rfl, rfl, rfl, rfl, rfl, rfl, rfl, rfl, rfl, rfl⟩

/-- C5: swapping the stored corners leaves the drawn grid identical, while
the serialized lines of the two objects differ whenever the corners
differ. -/
theorem swap_draw_invariant (r : CaveRectangle) (cave : CaveRendered) :
    r.swapCorners.draw cave = r.draw cave ∧
    (r.p1 ≠ r.p2 → r.swapCorners.get_bdcff ≠ r.get_bdcff) := by
  constructor
  · apply caveRendered_eq
    · rw [draw_w, draw_w]
    · rw [draw_h, draw_h]
    · intro a b
      rw [draw_map, draw_map]
      have hp := swapCorners_onPerimeter r a b
      have hel : r.swapCorners.element = r.element := rfl
      by_cases h : cave.inside a b ∧ r.onPerimeter a b
      · rw [if_pos ⟨h.1, hp.mpr h.2⟩, if_pos h, hel]
      · rw [if_neg (fun hc => h ⟨hc.1, hp.mp hc.2⟩), if_neg h]
  · intro hne heq
    have h1 := get_bdcff_words r.swapCorners
    have hs1 : r.swapCorners.p1 = r.p2 := rfl
    have hs2 : r.swapCorners.p2 = r.p1 := rfl
    have hse : r.swapCorners.element = r.element := rfl
    rw [hs1, hs2, hse, heq, get_bdcff_words r] at h1
    simp only [List.cons.injEq, and_true] at h1
    obtain ⟨-, hxx, hyy, -⟩ := h1
    exact hne (coordinate_eq (intToChars_inj hxx) (intToChars_inj hyy))

/-- Witness for C5 at a concrete rectangle with distinct corners. -/
theorem swap_draw_invariant_witness :
    (CaveRectangle.swapCorners ⟨⟨2, 2⟩, ⟨5, 4⟩, .Owall⟩).draw
        ⟨10, 10, fun _ _ => .Ospace⟩ =
      (⟨⟨2, 2⟩, ⟨5, 4⟩, .Owall⟩ : CaveRectangle).draw ⟨10, 10, fun _ _ => .Ospace⟩ ∧
    (CaveRectangle.swapCorners ⟨⟨2, 2⟩, ⟨5, 4⟩, .Owall⟩).get_bdcff ≠
      (⟨⟨2, 2⟩, ⟨5, 4⟩, .Owall⟩ : CaveRectangle).get_bdcff :=
  ⟨(swap_draw_invariant ⟨⟨2, 2⟩, ⟨5, 4⟩, .Owall⟩ ⟨10, 10, fun _ _ => .Ospace⟩).1,
   (swap_draw_invariant ⟨⟨2, 2⟩, ⟨5, 4⟩, .Owall⟩ ⟨10, 10, fun _ _ => .Ospace⟩).2
     (by decide)⟩

/-- C6: serialization is a total function on rectangle objects whose output
line tokenizes to exactly the type tag followed by p1.x, p1.y, p2.x, p2.y
and the element identifier's text form, in that order. -/
theorem get_bdcff_line (r : CaveRectangle) :
    words (r.get_bdcff).data =
      ["Rectangle".data, intToChars r.p1.x, intToChars r.p1.y,
       intToChars r.p2.x, intToChars r.p2.y, gdElementName r.element] :=
  get_bdcff_words r

/-- C7: construction stores the corner pair exactly as given; the
bounding-box query normalizes (it is invariant under swapping the stored
corners and its min components are bounded by its max components) without
rewriting the stored values, and serialization still observes the corners
in their original order. -/
theorem corners_never_rewritten (q1 q2 : Coordinate) (e : GdElementEnum) :
    (CaveRectangle.make q1 q2 e).p1 = q1 ∧ (CaveRectangle.make q1 q2 e).p2 = q2 ∧
    (CaveRectangle.make q1 q2 e).bbox = (CaveRectangle.make q2 q1 e).bbox ∧
    ((CaveRectangle.make q1 q2 e).bbox.1 ≤ (CaveRectangle.make q1 q2 e).bbox.2.2.1 ∧
     (CaveRectangle.make q1 q2 e).bbox.2.1 ≤ (CaveRectangle.make q1 q2 e).bbox.2.2.2) ∧
    words ((CaveRectangle.make q1 q2 e).get_bdcff).data =
      ["Rectangle".data, intToChars q1.x, intToChars q1.y, intToChars q2.x,
       intToChars q2.y, gdElementName e] := by
  refine ⟨rfl, rfl, ?_, ⟨min_le_max, min_le_max⟩, get_bdcff_words _⟩
  simp [CaveRectangle.bbox, CaveRectangle.make, min_comm, max_comm]

/-- C8 counterexample: the default constructor (header line 27) does not
set the element field, so a default-constructed rectangle's characteristic
element is the undefined/none sentinel, refuting the claim for the
default-constructor case. -/
theorem default_ctor_element_sentinel :
    CaveRectangle.defaultCtor.get_characteristic_element = GdElementEnum.Onone :=
  rfl

/-- C8 (amended): for rectangle objects built by the coordinate/element
constructor from a non-sentinel element, obtained by cloning, or produced
by successful parsing, the stored element is never the undefined/none
sentinel, and get_characteristic_element returns exactly the stored element
field; the default constructor is excluded since it leaves the element
undefined. -/
theorem element_never_sentinel :
    (∀ (q1 q2 : Coordinate) (e : GdElementEnum), e ≠ .Onone →
      (CaveRectangle.make q1 q2 e).element ≠ .Onone) ∧
    (∀ r : CaveRectangle, r.clone.element = r.element) ∧
    (∀ (L : String) (r : CaveRectangle),
      CaveRectangle.clone_from_bdcff L = some r → r.element ≠ .Onone) ∧
    (∀ r : CaveRectangle, r.get_characteristic_element = r.element) := by
  refine ⟨fun q1 q2 e he => he, fun r => rfl, ?_, fun r => rfl⟩
  intro L r h
  obtain ⟨a, b, c, d, e, hw, hpa, hpb, hpc, hpd, hpe⟩ := clone_from_bdcff_inv L r h
  exact gdElementFromName_ne_none hpe

/-- Witness for the amended C8 at a concrete construction and a concrete
parsed line. -/
theorem element_never_sentinel_witness :
    (CaveRectangle.make ⟨1, 1⟩ ⟨5, 5⟩ .Owall).element ≠ GdElementEnum.Onone ∧
    (⟨⟨1, 2⟩, ⟨5, 4⟩, .Owall⟩ : CaveRectangle).element ≠ GdElementEnum.Onone :=
  ⟨element_never_sentinel.1 ⟨1, 1⟩ ⟨5, 5⟩ .Owall (by decide),
   element_never_sentinel.2.2.1 "Rectangle 1 2 5 4 WALL"
     ⟨⟨1, 2⟩, ⟨5, 4⟩, .Owall⟩ (by decide)⟩

/-- C9: the descriptor table is one static list shared by every instance,
its field order is p1, p2, element; the serialized line is exactly the type
tag followed by the concatenated per-descriptor tokens in table order; and
the variant's parse operation agrees on every input line with the parser
generated generically from the table (tag, then each descriptor's field in
table order, nothing left over), so serialize, parse and the table cannot
drift apart. -/
theorem descriptor_consistency (r s : CaveRectangle) :
    r.get_description_array = CaveRectangle.descriptor ∧
    r.get_description_array = s.get_description_array ∧
    CaveRectangle.descriptor.map (fun dsc => dsc.ident) =
      ["p1".data, "p2".data, "element".data] ∧
    words (r.get_bdcff).data =
      "Rectangle".data ::
        (CaveRectangle.descriptor.map (fun dsc => dsc.tokensOf r)).flatten ∧
    (∀ L : String, CaveRectangle.clone_from_bdcff L = parseLineByTable L) := by
  refine ⟨rfl, rfl, rfl, ?_, fun L => clone_from_bdcff_eq_table L⟩
  rw [get_bdcff_words]
  rfl

/-- C10: constructing a SetLoggerContextForFunction with string s sets the
logger's context to s when the saved context is empty and to the saved
context followed by a comma, a space and s otherwise, touching no other
logger field; destroying it restores the context to exactly the saved
original, whatever the logger's context became in between. -/
theorem logger_context_scope (l : Logger) (s : String) :
    (setLoggerContextCtor s l).1.context =
      (if l.context.isEmpty then s else l.context ++ ", " ++ s) ∧
    (setLoggerContextCtor s l).2 = l.context ∧
    (∀ lmid : Logger,
      (setLoggerContextDtor lmid (setLoggerContextCtor s l).2).context = l.context) ∧
    (setLoggerContextCtor s l).1.ignore = l.ignore ∧
    (setLoggerContextCtor s l).1.read = l.read ∧
    (setLoggerContextCtor s l).1.messages = l.messages :=
  ⟨rfl, rfl, fun _ => rfl, rfl, rfl, rfl⟩

end GDash
